import Mathlib

/-!
Verification of the social-metric dashboard ingestion core
(`src/lib/metrics.ts`) against its natural-language specification.

Modelling conventions (shallow embedding):

* JS strings are modelled as `List Char`; the handful of string helpers the
  code uses (`trim`, `toLowerCase`, `toUpperCase`, `split`) are implemented as
  total functions below, restricted to the ASCII behaviour the data exercises.
* JS numbers are modelled as `ℚ` (the code only ever produces finite numbers:
  `toNumber` coerces every non-finite result to `0`).
* JS `Date` values are modelled by their UTC time value: an `Int` counting
  milliseconds since the Unix epoch.  `getUTCFullYear`/`getUTCMonth`/
  `getUTCDate` are realised by the standard civil-from-days conversion
  (`civilFromDays`), and `Date.UTC` by its inverse (`daysFromCivil`),
  including the ECMAScript overflow normalisation of out-of-range fields.
* The day key string `YYYY-MM-DD` produced by `toDayKey` is injective in the
  UTC day, so it is modelled by the UTC day number (`toDayKey` below); the
  month key string `YYYY-MM` is likewise modelled by the pair (year, month),
  whose lexicographic order agrees with the string order used by
  `localeCompare` for four-digit years.
* JS `Map` objects (insertion-ordered, unique keys) are modelled by
  association lists built by the generic `groupFold` below; `Array.sort`
  (stable since ES2019) is modelled by `List.insertionSort`, which is stable
  for the reflexive comparator relations used here.
* Calls into code that is not part of the repository (the `csv-parse`
  library, and the implementation-defined generic `new Date(string)` parser)
  are treated as parameters of the functions that invoke them.
-/

set_option maxHeartbeats 1000000

/-! ## String helpers (JS strings as char lists) -/

/-- Char-list literal helper. -/
def strD (s : String) : List Char := s.data

/-- Model of `String.prototype.trim`: drop leading and trailing whitespace. -/
def strTrim (s : List Char) : List Char :=
  ((s.dropWhile Char.isWhitespace).reverse.dropWhile Char.isWhitespace).reverse

/-- Model of `String.prototype.toLowerCase` on ASCII data. -/
def strLower (s : List Char) : List Char := s.map Char.toLower

/-- Model of `String.prototype.toUpperCase` on ASCII data. -/
def strUpper (s : List Char) : List Char := s.map Char.toUpper

/-- Split a char list at every occurrence of the character `c`
(model of `String.prototype.split(c)`; `"".split(c) = [""]`). -/
def splitOnChar (c : Char) : List Char → List (List Char)
  | [] => [[]]
  | a :: t =>
    match splitOnChar c t with
    | [] => if a = c then [[], []] else [[a]]
    | h :: r => if a = c then [] :: h :: r else (a :: h) :: r

/-- Split at every whitespace character. -/
def splitEveryWs : List Char → List (List Char)
  | [] => [[]]
  | a :: t =>
    match splitEveryWs t with
    | [] => if a.isWhitespace then [[], []] else [[a]]
    | h :: r => if a.isWhitespace then [] :: h :: r else (a :: h) :: r

/-- Model of `String.prototype.split(/\s+/)` on an already-trimmed string:
whitespace runs separate the fields, so empty fields are dropped. -/
def splitWsRuns (s : List Char) : List (List Char) :=
  (splitEveryWs s).filter (fun p => decide (p ≠ []))

/-- Decimal value of a digit string (used to model `Number(...)`). -/
def natVal (l : List Char) : Nat :=
  l.foldl (fun acc c => acc * 10 + (c.toNat - 48)) 0

/-- Magnitude part of the JS `Number(...)` model: an optionally signed
decimal literal `digits [. digits]` (also `.digits` and `digits.`).  `none`
models `NaN`. -/
def jsNumMag (sgn : Int) (rest : List Char) : Option ℚ :=
  match splitOnChar '.' rest with
  | [ip] =>
    if ip ≠ [] ∧ ip.all Char.isDigit then some (mkRat (sgn * natVal ip) 1)
    else none
  | [ip, fp] =>
    if (ip ≠ [] ∨ fp ≠ []) ∧ ip.all Char.isDigit ∧ fp.all Char.isDigit then
      some (mkRat (sgn * (natVal ip * 10 ^ fp.length + natVal fp)) (10 ^ fp.length))
    else none
  | _ => none

/-- Model of the JS `Number(string)` coercion on the decimal forms the data
uses: surrounding whitespace ignored, empty string is `0`, optional sign,
decimal digits with optional fraction; every other form yields `none`
(modelling `NaN`; the exotic hex/exponent forms never occur in this
pipeline's data and are out of the modelled fragment). -/
def jsNumber (s : List Char) : Option ℚ :=
  let t := strTrim s
  if t = [] then some 0
  else
    match t with
    | '+' :: r => jsNumMag 1 r
    | '-' :: r => jsNumMag (-1) r
    | r => jsNumMag 1 r

/-! ## Calendar arithmetic (UTC Date model) -/

/-- UTC day number of a timestamp in milliseconds (floor division, so that
negative timestamps land on the correct calendar day). -/
def msDay (t : Int) : Int := t.fdiv 86400000

/-- Convert a UTC day number to the civil (year, month, day) triple —
the model of `getUTCFullYear` / `getUTCMonth` / `getUTCDate`. -/
def civilFromDays (z0 : Int) : Int × Int × Int :=
  let z := z0 + 719468
  let era := z.fdiv 146097
  let doe := (z - era * 146097).toNat
  let yoe := (doe - doe / 1460 + doe / 36524 - doe / 146096) / 365
  let y : Int := (yoe : Int) + era * 400
  let doy := doe - (365 * yoe + yoe / 4 - yoe / 100)
  let mp := (5 * doy + 2) / 153
  let d := doy - (153 * mp + 2) / 5 + 1
  let m := if mp < 10 then mp + 3 else mp - 9
  (if m ≤ 2 then y + 1 else y, (m : Int), (d : Int))

/-- Inverse civil conversion: UTC day number of a (year, month, day) triple
with month in 1..12 (day may be out of range, shifting the result linearly,
exactly as ECMAScript `MakeDay` does). -/
def daysFromCivil (y m d : Int) : Int :=
  let y' := if m ≤ 2 then y - 1 else y
  let era := y'.fdiv 400
  let yoe := y' - era * 400
  let mp := if 2 < m then m - 3 else m + 9
  let doy := (153 * mp + 2).fdiv 5 + d - 1
  let doe := yoe * 365 + yoe.fdiv 4 - yoe.fdiv 100 + doy
  era * 146097 + doe - 719468

/-- ECMAScript `ToIntegerOrInfinity` on a finite number: truncation toward
zero, as applied by `Date.UTC` and the `Date` constructor to their numeric
arguments. -/
def ratTrunc (q : ℚ) : Int := if q < 0 then -(⌊-q⌋) else ⌊q⌋

/-- Model of `Date.UTC(year, monthIndex, day, hour, minute)` on finite
numeric arguments: each argument is truncated, the month index overflows
into the year, and day/hour/minute shift the result linearly. -/
def dateUTCms (y mIdx d h mi : ℚ) : Int :=
  let yi := ratTrunc y
  let mi' := ratTrunc mIdx
  let di := ratTrunc d
  let hi := ratTrunc h
  let mii := ratTrunc mi
  (daysFromCivil (yi + mi'.fdiv 12) (mi'.emod 12 + 1) 1 + (di - 1)) * 86400000
    + hi * 3600000 + mii * 60000

/-- Digits of a natural number (used to model number-to-string rendering). -/
def natChars (n : Nat) : List Char := Nat.toDigits 10 n

/-- Left-pad with zeros (model of `String.prototype.padStart(w, "0")`). -/
def padZeros (w : Nat) (s : List Char) : List Char :=
  List.replicate (w - s.length) '0' ++ s

/-- Model of `Date.prototype.toISOString` on a UTC time value: extended
year format outside 0..9999, otherwise four digits. -/
def isoString (t : Int) : List Char :=
  let dayN := msDay t
  let ofDay := (t.emod 86400000).toNat
  let c := civilFromDays dayN
  let y := c.1
  let mo := c.2.1
  let d := c.2.2
  let yearChars :=
    if 0 ≤ y ∧ y ≤ 9999 then padZeros 4 (natChars y.toNat)
    else if y < 0 then '-' :: padZeros 6 (natChars (-y).toNat)
    else '+' :: padZeros 6 (natChars y.toNat)
  yearChars ++ ('-' :: padZeros 2 (natChars mo.toNat))
    ++ ('-' :: padZeros 2 (natChars d.toNat))
    ++ ('T' :: padZeros 2 (natChars (ofDay / 3600000)))
    ++ (':' :: padZeros 2 (natChars (ofDay % 3600000 / 60000)))
    ++ (':' :: padZeros 2 (natChars (ofDay % 60000 / 1000)))
    ++ ('.' :: padZeros 3 (natChars (ofDay % 1000)))
    ++ ['Z']

/-! ## Data model (`src/lib/metrics.ts` types) -/

/-- The `Platform` union type: `"x" | "linkedin"`. -/
inductive Platform where
  | x
  | linkedin
deriving DecidableEq, Repr

/-- The `DailyMetric` record: one platform's counters for one day.  `date`
is the UTC time value in milliseconds; the sixteen numeric counters follow
the source order of `METRIC_KEYS`. -/
structure DailyMetric where
  source : Platform
  date : Int
  views : ℚ
  likes : ℚ
  comments : ℚ
  reposts : ℚ
  clicks : ℚ
  shares : ℚ
  bookmarks : ℚ
  profileVisits : ℚ
  engagements : ℚ
  videoViews : ℚ
  videoWatchViews : ℚ
  videoWatchTimeMs : ℚ
  videoCompletionRateSum : ℚ
  posts : ℚ
  newFollows : ℚ
  unfollows : ℚ
deriving DecidableEq

/-- The `MonthSummary` record.  `monthKey` is the (UTC year, month) pair
modelling the `YYYY-MM` string; the display-only `label` field (computed by
the external `formatMonthLabel`) is omitted from the model. -/
structure MonthSummary where
  monthKey : Int × Int
  views : ℚ
  likes : ℚ
  comments : ℚ
  reposts : ℚ
  clicks : ℚ
  shares : ℚ
  bookmarks : ℚ
  profileVisits : ℚ
  engagements : ℚ
  videoViews : ℚ
  videoWatchViews : ℚ
  videoWatchTimeMs : ℚ
  videoCompletionRateSum : ℚ
  posts : ℚ
  newFollows : ℚ
  unfollows : ℚ
  days : Nat
deriving DecidableEq

/-- The `Coverage` record; `endD` models the reserved-word field `end`. -/
structure Coverage where
  start : Option Int
  endD : Option Int
  days : Nat
deriving DecidableEq

/-- The `DataQualitySummary` record. -/
structure DataQualitySummary where
  label : List Char
  coverage : Coverage
  expectedDays : Option Int
  missingDays : Option Int
  zeroViewDays : Nat
deriving DecidableEq

/-- One entry of the X video-overview map (`loadXVideoOverviewByDate`). -/
structure VideoDay where
  views : ℚ
  watchTimeMs : ℚ
  completionRate : ℚ
deriving DecidableEq

/-- The `LinkedInPostSummary` record together with the transient `hasTime`
flag carried through deduplication (`LinkedInPostRecord` in the source). -/
structure LIPost where
  title : List Char
  link : List Char
  createdAt : Int
  impressions : ℚ
  views : ℚ
  clicks : ℚ
  likes : ℚ
  comments : ℚ
  reposts : ℚ
  engagementRate : Option ℚ
  contentType : List Char
  hasTime : Bool
deriving DecidableEq

/-- The `XPostSummary` record (`createdAt` may be unknown). -/
structure XPost where
  text : List Char
  link : List Char
  createdAt : Option Int
  impressions : ℚ
  likes : ℚ
  replies : ℚ
  reposts : ℚ
  engagements : ℚ
  engagementRate : Option ℚ
deriving DecidableEq

/-- The sixteen counter projections of a `DailyMetric`, in `METRIC_KEYS`
order. -/
def dmFields : List (DailyMetric → ℚ) :=
  [DailyMetric.views, DailyMetric.likes, DailyMetric.comments,
   DailyMetric.reposts, DailyMetric.clicks, DailyMetric.shares,
   DailyMetric.bookmarks, DailyMetric.profileVisits, DailyMetric.engagements,
   DailyMetric.videoViews, DailyMetric.videoWatchViews,
   DailyMetric.videoWatchTimeMs, DailyMetric.videoCompletionRateSum,
   DailyMetric.posts, DailyMetric.newFollows, DailyMetric.unfollows]

/-- The sixteen counter projections paired between `MonthSummary` and
`DailyMetric`, in `METRIC_KEYS` order. -/
def msFieldPairs : List ((MonthSummary → ℚ) × (DailyMetric → ℚ)) :=
  [(MonthSummary.views, DailyMetric.views),
   (MonthSummary.likes, DailyMetric.likes),
   (MonthSummary.comments, DailyMetric.comments),
   (MonthSummary.reposts, DailyMetric.reposts),
   (MonthSummary.clicks, DailyMetric.clicks),
   (MonthSummary.shares, DailyMetric.shares),
   (MonthSummary.bookmarks, DailyMetric.bookmarks),
   (MonthSummary.profileVisits, DailyMetric.profileVisits),
   (MonthSummary.engagements, DailyMetric.engagements),
   (MonthSummary.videoViews, DailyMetric.videoViews),
   (MonthSummary.videoWatchViews, DailyMetric.videoWatchViews),
   (MonthSummary.videoWatchTimeMs, DailyMetric.videoWatchTimeMs),
   (MonthSummary.videoCompletionRateSum, DailyMetric.videoCompletionRateSum),
   (MonthSummary.posts, DailyMetric.posts),
   (MonthSummary.newFollows, DailyMetric.newFollows),
   (MonthSummary.unfollows, DailyMetric.unfollows)]

/-! ## Generic insertion-ordered map fold (JS `Map` model)

The merge, month-aggregation and post-deduplication loops all follow the
same shape: iterate over a list, look the current element's key up in a
`Map`, insert on a miss, combine on a hit.  JS `Map`s keep unique keys in
insertion order and `set` on an existing key keeps its position, which the
association-list operations below reproduce. -/

/-- Lookup in an association list (model of `Map.prototype.get`). -/
def alook {κ β : Type} [DecidableEq κ] (k : κ) : List (κ × β) → Option β
  | [] => none
  | (k', b) :: t => if k' = k then some b else alook k t

/-- Replace the value stored at an existing key, keeping its position
(model of `Map.prototype.set` on a present key). -/
def updateKey {κ β : Type} [DecidableEq κ] (k : κ) (b : β) :
    List (κ × β) → List (κ × β)
  | [] => []
  | (k', b') :: t =>
    if k' = k then (k', b) :: t else (k', b') :: updateKey k b t

/-- One step of a grouping loop: on a missing key append a fresh entry, on a
present key combine into the stored value. -/
def groupStep {α β κ : Type} [DecidableEq κ] (key : α → κ) (init : α → β)
    (comb : β → α → β) (acc : List (κ × β)) (a : α) : List (κ × β) :=
  match alook (key a) acc with
  | none => acc ++ [(key a, init a)]
  | some b => updateKey (key a) (comb b a) acc

/-- Grouping fold over a list (model of the `forEach`-into-`Map` loops). -/
def groupFold {α β κ : Type} [DecidableEq κ] (key : α → κ) (init : α → β)
    (comb : β → α → β) (l : List α) : List (κ × β) :=
  l.foldl (groupStep key init comb) []

/-! ## Merge engine and aggregator -/

/-- The merge key of a daily record: the model of the string
`source + "-" + toDayKey(date)` (injective in the (platform, UTC day)
pair). -/
def mkey (m : DailyMetric) : Platform × Int := (m.source, msDay m.date)

/-- Per-field maximum of two daily records sharing a key: `source` and
`date` stay those of the existing record, every counter in `METRIC_KEYS`
takes the `Math.max` of the two (body of the merge loop in
`mergeDailyMetrics`). -/
def mergeCounters (a b : DailyMetric) : DailyMetric :=
  { a with
    views := max a.views b.views
    likes := max a.likes b.likes
    comments := max a.comments b.comments
    reposts := max a.reposts b.reposts
    clicks := max a.clicks b.clicks
    shares := max a.shares b.shares
    bookmarks := max a.bookmarks b.bookmarks
    profileVisits := max a.profileVisits b.profileVisits
    engagements := max a.engagements b.engagements
    videoViews := max a.videoViews b.videoViews
    videoWatchViews := max a.videoWatchViews b.videoWatchViews
    videoWatchTimeMs := max a.videoWatchTimeMs b.videoWatchTimeMs
    videoCompletionRateSum := max a.videoCompletionRateSum b.videoCompletionRateSum
    posts := max a.posts b.posts
    newFollows := max a.newFollows b.newFollows
    unfollows := max a.unfollows b.unfollows }

/-- The ascending-date comparator used by `mergeDailyMetrics`'s final sort
(`(a, b) => a.date.getTime() - b.date.getTime()`). -/
def dateLE (a b : DailyMetric) : Prop := a.date ≤ b.date

instance : DecidableRel dateLE := fun a b =>
  inferInstanceAs (Decidable (a.date ≤ b.date))

instance : IsTotal DailyMetric dateLE := ⟨fun a b => Int.le_total a.date b.date⟩

instance : IsTrans DailyMetric dateLE := ⟨fun _ _ _ h1 h2 => le_trans h1 h2⟩

/-- The `mergeDailyMetrics` function: group by (platform, day) key taking
per-counter maxima, then sort the surviving records by date ascending. -/
def mergeDailyMetrics (metrics : List DailyMetric) : List DailyMetric :=
  List.insertionSort dateLE ((groupFold mkey id mergeCounters metrics).map Prod.snd)

/-- The month key of a date: the model of `toMonthKey` (UTC year and
month). -/
def toMonthKey (t : Int) : Int × Int :=
  let c := civilFromDays (msDay t)
  (c.1, c.2.1)

/-- Fresh month bucket for a daily record (the object literal created on a
`Map` miss in `aggregateByMonth`). -/
def initMonth (m : DailyMetric) : MonthSummary :=
  { monthKey := toMonthKey m.date
    views := m.views
    likes := m.likes
    comments := m.comments
    reposts := m.reposts
    clicks := m.clicks
    shares := m.shares
    bookmarks := m.bookmarks
    profileVisits := m.profileVisits
    engagements := m.engagements
    videoViews := m.videoViews
    videoWatchViews := m.videoWatchViews
    videoWatchTimeMs := m.videoWatchTimeMs
    videoCompletionRateSum := m.videoCompletionRateSum
    posts := m.posts
    newFollows := m.newFollows
    unfollows := m.unfollows
    days := 1 }

/-- Accumulate a daily record into its month bucket (the `+=` block of
`aggregateByMonth`). -/
def addMonth (s : MonthSummary) (m : DailyMetric) : MonthSummary :=
  { s with
    views := s.views + m.views
    likes := s.likes + m.likes
    comments := s.comments + m.comments
    reposts := s.reposts + m.reposts
    clicks := s.clicks + m.clicks
    shares := s.shares + m.shares
    bookmarks := s.bookmarks + m.bookmarks
    profileVisits := s.profileVisits + m.profileVisits
    engagements := s.engagements + m.engagements
    videoViews := s.videoViews + m.videoViews
    videoWatchViews := s.videoWatchViews + m.videoWatchViews
    videoWatchTimeMs := s.videoWatchTimeMs + m.videoWatchTimeMs
    videoCompletionRateSum := s.videoCompletionRateSum + m.videoCompletionRateSum
    posts := s.posts + m.posts
    newFollows := s.newFollows + m.newFollows
    unfollows := s.unfollows + m.unfollows
    days := s.days + 1 }

/-- Ascending order on month keys: the model of
`a.monthKey.localeCompare(b.monthKey)`, which on the `YYYY-MM` strings of
four-digit years agrees with the lexicographic pair order. -/
def monthLE (a b : MonthSummary) : Prop :=
  a.monthKey.1 < b.monthKey.1 ∨ (a.monthKey.1 = b.monthKey.1 ∧ a.monthKey.2 ≤ b.monthKey.2)

instance : DecidableRel monthLE := fun a b =>
  inferInstanceAs (Decidable (_ ∨ _))

instance : IsTotal MonthSummary monthLE :=
  ⟨fun a b => by
    rcases lt_trichotomy a.monthKey.1 b.monthKey.1 with h | h | h
    · exact Or.inl (Or.inl h)
    · rcases le_total a.monthKey.2 b.monthKey.2 with h2 | h2
      · exact Or.inl (Or.inr ⟨h, h2⟩)
      · exact Or.inr (Or.inr ⟨h.symm, h2⟩)
    · exact Or.inr (Or.inl h)⟩

instance : IsTrans MonthSummary monthLE :=
  ⟨fun _ _ _ hab hbc => by
    rcases hab with h1 | ⟨h1, h1'⟩ <;> rcases hbc with h2 | ⟨h2, h2'⟩
    · exact Or.inl (h1.trans h2)
    · exact Or.inl (h2 ▸ h1)
    · exact Or.inl (h1 ▸ h2)
    · exact Or.inr ⟨h1.trans h2, h1'.trans h2'⟩⟩

/-- Month key of a daily record (`toMonthKey(metric.date)` as used by the
aggregation loop). -/
def dayMonthKey (m : DailyMetric) : Int × Int := toMonthKey m.date

/-- The `aggregateByMonth` function: bucket daily records by UTC calendar
month, summing every counter and counting contributing days, then sort the
buckets by month key ascending. -/
def aggregateByMonth (daily : List DailyMetric) : List MonthSummary :=
  List.insertionSort monthLE
    ((groupFold dayMonthKey initMonth addMonth daily).map Prod.snd)

/-- The `buildCoverage` function: date range and record count of a daily
series. -/
def buildCoverage (daily : List DailyMetric) : Coverage :=
  if daily = [] then { start := none, endD := none, days := 0 }
  else
    let sorted := List.insertionSort dateLE daily
    { start := sorted.head?.map DailyMetric.date
      endD := sorted.getLast?.map DailyMetric.date
      days := sorted.length }

/-- The `buildDataQuality` function: expected day span (inclusive, via
`Math.round`, modelled by Mathlib's `round`, which also rounds halves up),
shortfall, and zero-view day count. -/
def buildDataQuality (label : List Char) (daily : List DailyMetric) :
    DataQualitySummary :=
  let coverage := buildCoverage daily
  match coverage.start, coverage.endD with
  | some s, some e =>
    let expectedDays : Int := round (((e - s : Int) : ℚ) / 86400000) + 1
    { label
      coverage
      expectedDays := some expectedDays
      missingDays := some (max (expectedDays - (coverage.days : Int)) 0)
      zeroViewDays := (daily.filter (fun m => decide (m.views = 0))).length }
  | _, _ =>
    { label
      coverage
      expectedDays := none
      missingDays := none
      zeroViewDays := 0 }

/-- The `calculateEngagementRate` function: `null` on falsy impressions
(for finite numbers, impressions = 0), otherwise the likes + comments +
reposts over impressions ratio. -/
def calculateEngagementRate (impressions likes comments reposts : ℚ) : Option ℚ :=
  if impressions = 0 then none
  else some ((likes + comments + reposts) / impressions)

/-! ## Post ranking engine: deduplication -/

/-- Identity key of a LinkedIn post (`loadLinkedInPostsData`):
`post.link || post.title + "-" + post.createdAt.toISOString()`. -/
def liPostKey (p : LIPost) : List Char :=
  if p.link ≠ [] then p.link else p.title ++ ('-' :: isoString p.createdAt)

/-- Identity key of an X post (`loadXPostsData`):
`post.link || post.text + "-" + (post.createdAt?.toISOString() ?? "")`. -/
def xPostKey (p : XPost) : List Char :=
  if p.link ≠ [] then p.link
  else
    p.text ++ ('-' :: (match p.createdAt with
      | some t => isoString t
      | none => []))

/-- Keep rule of the LinkedIn dedup loop: replace the stored post when the
new one has strictly more impressions, or ties on impressions and carries a
known time-of-day while the stored one does not. -/
def liKeep (existing p : LIPost) : LIPost :=
  if p.impressions > existing.impressions ∨
      (p.impressions = existing.impressions ∧ p.hasTime ∧ ¬existing.hasTime)
  then p else existing

/-- Keep rule of the X dedup loop: replace the stored post only on strictly
more impressions. -/
def xKeep (existing p : XPost) : XPost :=
  if p.impressions > existing.impressions then p else existing

/-- The LinkedIn dedup `Map` (`dedupedPosts` in `loadLinkedInPostsData`). -/
def dedupLinkedInPosts (posts : List LIPost) : List (List Char × LIPost) :=
  groupFold liPostKey id liKeep posts

/-- The X dedup `Map` (`deduped` in `loadXPostsData`). -/
def dedupXPosts (posts : List XPost) : List (List Char × XPost) :=
  groupFold xPostKey id xKeep posts

/-! ## Table extractor -/

/-- A parsed row record: header name to cell value, with the JS-object
update semantics of `acc[header] = value` (`objUpsert`). -/
def objUpsert (acc : List (List Char × List Char)) (k v : List Char) :
    List (List Char × List Char) :=
  if acc.any (fun kv => decide (kv.1 = k)) then
    acc.map (fun kv => if kv.1 = k then (kv.1, v) else kv)
  else acc ++ [(k, v)]

/-- Build one record from the header list and a raw row
(the `headers.reduce` body of `parseCsvWithHeader`): cell `index` is read
for each header, missing cells default to the empty string, extra cells are
ignored. -/
def buildRecord (headers row : List (List Char)) :
    List (List Char × List Char) :=
  headers.enum.foldl (fun acc p => objUpsert acc p.2 (row.getD p.1 [])) []

/-- The `parseCsvWithHeader` function.  The `csv-parse` library call (with
`skip_empty_lines` and `relax_column_count`) is not repository code, so the
grid parser is a parameter; a thrown exception is an `Except.error`, which
the `try/catch` of the source turns into the empty result.  The function
scans the grid for the first row containing a cell whose trimmed,
case-insensitive value equals the trimmed, case-insensitive header label,
takes it as the header row, and turns the non-blank rows after it into
records. -/
def parseCsvWithHeader
    (csvParse : List Char → Except Unit (List (List (List Char))))
    (csvText headerLabel : List Char) :
    List (List Char) × List (List (List Char × List Char)) :=
  match csvParse csvText with
  | .error _ => ([], [])
  | .ok rawRows =>
    let target := strLower (strTrim headerLabel)
    match rawRows.findIdx? (fun row =>
        row.any (fun cell => decide (strLower (strTrim cell) = target))) with
    | none => ([], [])
    | some i =>
      let headers := (rawRows.getD i []).map strTrim
      let rows := ((rawRows.drop (i + 1)).filter (fun row =>
          row.any (fun cell => decide (strTrim cell ≠ [])))).map
        (fun row => buildRecord headers row)
      (headers, rows)

/-! ## Field normalizer -/

/-- The `pickField` function: first candidate present as an exact key wins;
otherwise the first candidate present in the lowercased map (where a later
duplicate lowercased key overwrites an earlier one, as `Map` construction
does); otherwise the empty string. -/
def pickField (row : List (List Char × List Char)) (candidates : List (List Char)) :
    List Char :=
  match candidates.find? (fun c => row.any (fun kv => decide (kv.1 = c))) with
  | some c =>
    match row.find? (fun kv => decide (kv.1 = c)) with
    | some kv => kv.2
    | none => []
  | none =>
    match candidates.findSome? (fun c =>
        (((row.map (fun kv => (strLower kv.1, kv.2))).filter
            (fun kv => decide (kv.1 = strLower c))).getLast?).map Prod.snd) with
    | some v => v
    | none => []

/-- The `toNumber` function on string cells: empty string is `0`, commas are
stripped, the trimmed remainder is parsed as a decimal number, and anything
non-finite collapses to `0`. -/
def toNumber (value : List Char) : ℚ :=
  if value = [] then 0
  else
    match jsNumber (strTrim (value.filter (fun c => decide (c ≠ ',')))) with
    | some q => q
    | none => 0

/-! ## Platform-B date/time parser -/

/-- Raw cell value reaching `parseLinkedInDateTime` (`unknown` in the
source): null/undefined, a `Date`, a number, or a string. -/
inductive LIRaw where
  | null
  | date (ms : Int)
  | num (q : ℚ)
  | str (s : List Char)

/-- The sequential AM/PM adjustment of the parsed hour inside
`parseLinkedInDateTime`: `PM` with hour below 12 adds 12, then `AM` with
hour 12 resets to 0 (`ampm` is the already-uppercased third token). -/
def liAdjustHour (ampm : Option (List Char)) (hour : ℚ) : ℚ :=
  let h1 := if ampm = some (strD "PM") ∧ hour < 12 then hour + 12 else hour
  if ampm = some (strD "AM") ∧ h1 = 12 then 0 else h1

/-- Hour and minute extracted from the optional time and AM/PM tokens of a
platform-B date string (the `timePart`/`ampmPart` block of
`parseLinkedInDateTime`); both default to 0, `NaN` components are
ignored. -/
def liTime (timePart ampmPart : Option (List Char)) : ℚ × ℚ :=
  match timePart with
  | none => (0, 0)
  | some tp =>
    if tp ≠ [] ∧ tp.contains ':' then
      let ps := splitOnChar ':' tp
      let hour := match jsNumber (ps.headD []) with
        | some q => q
        | none => 0
      let minute := match ps[1]? with
        | some mp =>
          match jsNumber mp with
          | some q => q
          | none => 0
        | none => 0
      (liAdjustHour (ampmPart.map strUpper) hour, minute)
    else (0, 0)

/-- The `parseLinkedInDateTime` function.  Falsy input (null, the number 0,
the empty string) yields `none`; a `Date` passes through; a number is an
Excel serial counted in days from 1899-12-30 UTC; a string is split on
whitespace into date, time and AM/PM parts, the date part split on `/` into
month/day/year (the configured `LINKEDIN_DATE_FORMAT` is `"MDY"`), and any
failure of that shape falls back to the implementation-defined generic
`new Date(string)` parser, which is the parameter `jsGenericDate`. -/
def parseLinkedInDateTime (jsGenericDate : List Char → Option Int) :
    LIRaw → Option Int
  | .null => none
  | .date ms => some ms
  | .num q =>
    if q = 0 then none
    else some (ratTrunc (((daysFromCivil 1899 12 30 * 86400000 : Int) : ℚ) + q * 86400000))
  | .str s =>
    if s = [] then none
    else
      let trimmed := strTrim s
      let parts := splitWsRuns trimmed
      let datePart := parts.headD []
      let timePart := parts[1]?
      let ampmPart := parts[2]?
      match splitOnChar '/' datePart with
      | [a, b, c] =>
        match jsNumber a, jsNumber b, jsNumber c with
        | some p1, some p2, some p3 =>
          let hm := liTime timePart ampmPart
          some (dateUTCms p3 (p1 - 1) p2 hm.1 hm.2)
        | _, _, _ => jsGenericDate trimmed
      | _ => jsGenericDate trimmed

/-! ## Platform-A record mapper -/

/-- Map one row of the X account-analytics export to a `DailyMetric`
(the row-mapping body of `loadXDailyMetrics`).  The `parseXDate` argument
models the implementation-defined generic date parse of the `Date` column
(`new Date(raw)` truncated to a UTC day); `videoMap` models the
video-overview map keyed by UTC day. -/
def xDailyRowToMetric (parseXDate : List Char → Option Int)
    (videoMap : Int → Option VideoDay)
    (row : List (List Char × List Char)) : Option DailyMetric :=
  match parseXDate (pickField row [strD "Date"]) with
  | none => none
  | some date =>
    let video := videoMap (msDay date)
    let videoWatchViews := match video with
      | some v => v.views
      | none => 0
    let videoWatchTimeMs := match video with
      | some v => v.watchTimeMs
      | none => 0
    let videoCompletionRateSum := match video with
      | some v => v.completionRate * v.views
      | none => 0
    let baseVideoViews :=
      toNumber (pickField row [strD "Video views"])
    some
      { source := Platform.x
        date := date
        views := toNumber (pickField row [strD "Impressions"])
        likes := toNumber (pickField row [strD "Likes"])
        comments := toNumber (pickField row [strD "Replies"])
        reposts :=
          toNumber (pickField row [strD "Reposts", strD "Retweets"]) +
            toNumber (pickField row [strD "Shares"])
        clicks := 0
        shares := toNumber (pickField row [strD "Shares"])
        bookmarks := toNumber (pickField row [strD "Bookmarks"])
        profileVisits := toNumber (pickField row [strD "Profile visits"])
        engagements := toNumber (pickField row [strD "Engagements"])
        videoViews := if baseVideoViews ≠ 0 then baseVideoViews else videoWatchViews
        videoWatchViews := videoWatchViews
        videoWatchTimeMs := videoWatchTimeMs
        videoCompletionRateSum := videoCompletionRateSum
        posts := toNumber (pickField row [strD "Create Post"])
        newFollows := toNumber (pickField row [strD "New follows"])
        unfollows := toNumber (pickField row [strD "Unfollows"]) }

/-! ## Concrete fixtures used by witnesses and counterexamples -/

/-- A daily record whose counters are all zero except `views`. -/
def mkDailyViews (d : Int) (v : ℚ) : DailyMetric :=
  { source := Platform.x
    date := d
    views := v
    likes := 0
    comments := 0
    reposts := 0
    clicks := 0
    shares := 0
    bookmarks := 0
    profileVisits := 0
    engagements := 0
    videoViews := 0
    videoWatchViews := 0
    videoWatchTimeMs := 0
    videoCompletionRateSum := 0
    posts := 0
    newFollows := 0
    unfollows := 0 }

/-- Two records for the same day from two overlapping export files (the
specification's views=100 / views=80 example). -/
def overlapPair : List DailyMetric := [mkDailyViews 0 100, mkDailyViews 0 80]

/-- Nine day-aligned records spanning days 0..9 with day 4 missing (the
specification's D1..D10 coverage example). -/
def gapSeries : List DailyMetric :=
  [mkDailyViews 0 1, mkDailyViews 86400000 1, mkDailyViews 172800000 1,
   mkDailyViews 259200000 1, mkDailyViews 432000000 1, mkDailyViews 518400000 1,
   mkDailyViews 604800000 1, mkDailyViews 691200000 1, mkDailyViews 777600000 1]

/-- A LinkedIn post with the given link, impressions and time flag. -/
def liPostW (link : List Char) (imp : ℚ) (ht : Bool) : LIPost :=
  { title := []
    link := link
    createdAt := 0
    impressions := imp
    views := 0
    clicks := 0
    likes := 0
    comments := 0
    reposts := 0
    engagementRate := none
    contentType := []
    hasTime := ht }

/-- Two LinkedIn posts sharing a permalink with impressions 500 and 800. -/
def liDupPosts : List LIPost := [liPostW (strD "p") 500 false, liPostW (strD "p") 800 false]

/-- An X post with the given link and impressions. -/
def xPostW (link : List Char) (imp : ℚ) : XPost :=
  { text := []
    link := link
    createdAt := none
    impressions := imp
    likes := 0
    replies := 0
    reposts := 0
    engagements := 0
    engagementRate := none }

/-- Two X posts sharing a permalink with impressions 500 and 800. -/
def xDupPosts : List XPost := [xPostW (strD "q") 500, xPostW (strD "q") 800]

/-- A grid parser that always throws (models a `csv-parse` failure). -/
def csvThrow : List Char → Except Unit (List (List (List Char))) :=
  fun _ => Except.error ()

/-- A grid parser returning one fixed row without the header label. -/
def csvNoHeader : List Char → Except Unit (List (List (List Char))) :=
  fun _ => Except.ok [[strD "alpha", strD "beta"]]

/-- A generic string-date parser that always fails (stand-in for the
implementation-defined `new Date(string)` fallback in concrete checks). -/
def genNone : List Char → Option Int := fun _ => none

/-- Concrete X date-column parser mapping the one date the fixture rows use
to midnight UTC 2023-01-01. -/
def pXFix : List Char → Option Int :=
  fun s => if s = strD "2023-01-01" then some (19358 * 86400000) else none

/-- Concrete video-overview map: day 19358 has 7 observed views. -/
def vmFix : Int → Option VideoDay :=
  fun d => if d = 19358 then some ⟨7, 100, mkRat 1 2⟩ else none

/-- An X daily row whose explicit "Video views" column carries the value 0. -/
def rowZeroVideo : List (List Char × List Char) :=
  [(strD "Date", strD "2023-01-01"), (strD "Impressions", strD "5"),
   (strD "Video views", strD "0")]

/-- An X daily row with both a "Reposts" and a "Shares" column. -/
def rowRepostShare : List (List Char × List Char) :=
  [(strD "Date", strD "2023-01-01"), (strD "Reposts", strD "3"),
   (strD "Shares", strD "4")]

/-! ## Association-list and grouping lemmas -/

theorem alook_append {κ β : Type} [DecidableEq κ] (k c : κ) (b : β)
    (l : List (κ × β)) :
    alook k (l ++ [(c, b)]) =
      match alook k l with
      | some x => some x
      | none => if c = k then some b else none := by
  induction l with
  | nil => simp [alook]
  | cons p t ih =>
    obtain ⟨k', b'⟩ := p
    by_cases h : k' = k <;> simp [alook, h, ih]

theorem alook_updateKey_ne {κ β : Type} [DecidableEq κ] {k k' : κ} (b : β)
    (l : List (κ × β)) (h : k' ≠ k) :
    alook k' (updateKey k b l) = alook k' l := by
  induction l with
  | nil => simp [updateKey]
  | cons p t ih =>
    obtain ⟨k0, b0⟩ := p
    simp only [updateKey]
    by_cases h0 : k0 = k
    · subst h0
      simp only [if_pos rfl]
      have hne : k0 ≠ k' := fun hc => h hc.symm
      simp [alook, hne]
    · simp only [if_neg h0]
      by_cases h1 : k0 = k' <;> simp [alook, h1, ih]

theorem alook_updateKey_self {κ β : Type} [DecidableEq κ] {k : κ} (b : β)
    (l : List (κ × β)) (h : (alook k l).isSome) :
    alook k (updateKey k b l) = some b := by
  induction l with
  | nil => simp [alook] at h
  | cons p t ih =>
    obtain ⟨k0, b0⟩ := p
    by_cases h0 : k0 = k
    · simp [updateKey, alook, h0]
    · simp [alook, h0] at h
      simp [updateKey, alook, h0, ih h]

theorem akeys_updateKey {κ β : Type} [DecidableEq κ] (k : κ) (b : β)
    (l : List (κ × β)) :
    (updateKey k b l).map Prod.fst = l.map Prod.fst := by
  induction l with
  | nil => rfl
  | cons p t ih =>
    obtain ⟨k0, b0⟩ := p
    by_cases h0 : k0 = k <;> simp [updateKey, h0, ih]

theorem alook_isSome_iff {κ β : Type} [DecidableEq κ] (k : κ)
    (l : List (κ × β)) :
    (alook k l).isSome ↔ k ∈ l.map Prod.fst := by
  induction l with
  | nil => simp [alook]
  | cons p t ih =>
    obtain ⟨k0, b0⟩ := p
    by_cases h0 : k0 = k
    · subst h0
      simp [alook]
    · simp only [List.map_cons, List.mem_cons, alook, if_neg h0, ih]
      constructor
      · exact Or.inr
      · rintro (h | h)
        · exact absurd h.symm h0
        · exact h

theorem alook_some_mem {κ β : Type} [DecidableEq κ] {k : κ} {b : β}
    {l : List (κ × β)} (h : alook k l = some b) : (k, b) ∈ l := by
  induction l with
  | nil => simp [alook] at h
  | cons p t ih =>
    obtain ⟨k0, b0⟩ := p
    by_cases h0 : k0 = k
    · subst h0
      simp [alook] at h
      simp [h]
    · simp [alook, h0] at h
      exact List.mem_cons_of_mem _ (ih h)

theorem mem_updateKey {κ β : Type} [DecidableEq κ] {k : κ} {b : β}
    {l : List (κ × β)} {p : κ × β} (h : p ∈ updateKey k b l) :
    p ∈ l ∨ p = (k, b) := by
  induction l with
  | nil => simp [updateKey] at h
  | cons q t ih =>
    obtain ⟨k0, b0⟩ := q
    by_cases h0 : k0 = k
    · subst h0
      simp [updateKey] at h
      rcases h with h | h
      · exact Or.inr (by simp [h])
      · exact Or.inl (List.mem_cons_of_mem _ h)
    · simp [updateKey, h0] at h
      rcases h with h | h
      · exact Or.inl (by simp [h])
      · rcases ih h with h' | h'
        · exact Or.inl (List.mem_cons_of_mem _ h')
        · exact Or.inr h'

theorem groupFold_append {α β κ : Type} [DecidableEq κ] (key : α → κ)
    (init : α → β) (comb : β → α → β) (l : List α) (a : α) :
    groupFold key init comb (l ++ [a]) =
      groupStep key init comb (groupFold key init comb l) a := by
  simp [groupFold, List.foldl_append]

theorem groupFold_alook {α β κ : Type} [DecidableEq κ] (key : α → κ)
    (init : α → β) (comb : β → α → β) (l : List α) (k : κ) :
    alook k (groupFold key init comb l) =
      match l.filter (fun a => decide (key a = k)) with
      | [] => none
      | h :: t => some (t.foldl comb (init h)) := by
  induction l using List.reverseRecOn with
  | nil => simp [groupFold, alook]
  | append_singleton l a ih =>
    rw [groupFold_append, List.filter_append]
    by_cases hk : key a = k
    · subst hk
      cases hft : l.filter (fun b => decide (key b = key a)) with
      | nil =>
        have hnone : alook (key a) (groupFold key init comb l) = none := by
          rw [ih, hft]
        simp only [groupStep, hnone]
        rw [alook_append, hnone]
        simp
      | cons h t =>
        have hsome : alook (key a) (groupFold key init comb l) =
            some (t.foldl comb (init h)) := by
          rw [ih, hft]
        simp only [groupStep, hsome]
        rw [alook_updateKey_self _ _ (by simp [hsome])]
        simp [List.foldl_append]
    · have hfa : List.filter (fun b => decide (key b = k)) [a] = [] := by
        simp [hk]
      rw [hfa, List.append_nil]
      cases hx : alook (key a) (groupFold key init comb l) with
      | none =>
        simp only [groupStep, hx]
        rw [alook_append, ih]
        cases hft : l.filter (fun b => decide (key b = k)) with
        | nil => simp [hk]
        | cons h t => simp
      | some b =>
        simp only [groupStep, hx]
        rw [alook_updateKey_ne _ _ (fun hc => hk hc.symm), ih]

theorem groupFold_keys_nodup {α β κ : Type} [DecidableEq κ] (key : α → κ)
    (init : α → β) (comb : β → α → β) (l : List α) :
    ((groupFold key init comb l).map Prod.fst).Nodup := by
  induction l using List.reverseRecOn with
  | nil => simp [groupFold]
  | append_singleton l a ih =>
    rw [groupFold_append]
    cases hx : alook (key a) (groupFold key init comb l) with
    | none =>
      have hnotmem : key a ∉ (groupFold key init comb l).map Prod.fst := by
        rw [← alook_isSome_iff, hx]
        simp
      simp only [groupStep, hx, List.map_append]
      rw [List.nodup_append]
      refine ⟨ih, by simp, ?_⟩
      intro x hx1 hx2
      simp only [List.map_cons, List.map_nil, List.mem_singleton] at hx2
      subst hx2
      exact hnotmem hx1
    | some b =>
      simp only [groupStep, hx]
      rw [akeys_updateKey]
      exact ih

theorem groupFold_value_key {α β κ : Type} [DecidableEq κ] (key : α → κ)
    (init : α → β) (comb : β → α → β) (keyOf : β → κ)
    (hinit : ∀ a, keyOf (init a) = key a)
    (hcomb : ∀ b a, keyOf (comb b a) = keyOf b) (l : List α) :
    ∀ p ∈ groupFold key init comb l, keyOf p.2 = p.1 := by
  induction l using List.reverseRecOn with
  | nil => simp [groupFold]
  | append_singleton l a ih =>
    rw [groupFold_append]
    intro p hp
    cases hx : alook (key a) (groupFold key init comb l) with
    | none =>
      rw [groupStep, hx] at hp
      rcases List.mem_append.mp hp with h | h
      · exact ih p h
      · simp at h
        subst h
        exact hinit a
    | some b =>
      rw [groupStep, hx] at hp
      rcases mem_updateKey hp with h | h
      · exact ih p h
      · subst h
        have hb : keyOf b = key a := ih (key a, b) (alook_some_mem hx)
        simpa [hcomb] using hb

theorem filter_map_snd {κ β : Type} [DecidableEq κ] (keyOf : β → κ)
    (P : List (κ × β)) (hkv : ∀ p ∈ P, keyOf p.2 = p.1)
    (hnd : (P.map Prod.fst).Nodup) (k : κ) :
    (P.map Prod.snd).filter (fun b => decide (keyOf b = k)) =
      match alook k P with
      | some b => [b]
      | none => [] := by
  induction P with
  | nil => simp [alook]
  | cons p t ih =>
    obtain ⟨k0, b0⟩ := p
    have hb0 : keyOf b0 = k0 := hkv (k0, b0) (by simp)
    have hndt : (t.map Prod.fst).Nodup := (List.nodup_cons.mp hnd).2
    have hkvt : ∀ p ∈ t, keyOf p.2 = p.1 := fun p hp =>
      hkv p (List.mem_cons_of_mem _ hp)
    by_cases h0 : k0 = k
    · subst h0
      have hnotmem : k0 ∉ t.map Prod.fst := (List.nodup_cons.mp hnd).1
      have htail : (t.map Prod.snd).filter (fun b => decide (keyOf b = k0)) = [] := by
        rw [List.filter_eq_nil_iff]
        intro b hb
        obtain ⟨p, hp, hpb⟩ := List.mem_map.mp hb
        have := hkvt p hp
        simp only [decide_eq_true_eq]
        intro hkb
        exact hnotmem (List.mem_map.mpr ⟨p, hp, by rw [← this, hpb, hkb]⟩)
      simp [alook, hb0, htail]
    · have : keyOf b0 ≠ k := by rw [hb0]; exact h0
      simp [alook, h0, this, ih hkvt hndt]

theorem groupFold_id_of_nodup {α κ : Type} [DecidableEq κ] (key : α → κ)
    (comb : α → α → α) (l : List α) (hnd : (l.map key).Nodup) :
    groupFold key id comb l = l.map (fun a => (key a, a)) := by
  induction l using List.reverseRecOn with
  | nil => simp [groupFold]
  | append_singleton l a ih =>
    rw [List.map_append] at hnd
    rw [List.nodup_append] at hnd
    obtain ⟨hl, -, hdisj⟩ := hnd
    have heq : groupFold key id comb l = l.map (fun a => (key a, a)) := ih hl
    have hnotmem : key a ∉ (groupFold key id comb l).map Prod.fst := by
      rw [heq, List.map_map]
      intro hmem
      exact hdisj (by simpa using hmem) (by simp)
    have hnone : alook (key a) (groupFold key id comb l) = none := by
      cases hx : alook (key a) (groupFold key id comb l) with
      | none => rfl
      | some b =>
        exact absurd ((alook_isSome_iff _ _).mp (by simp [hx])) hnotmem
    rw [groupFold_append, groupStep, hnone, heq]
    simp

/-! ## Merge engine lemmas -/

theorem mergeCounters_mkey (a b : DailyMetric) :
    mkey (mergeCounters a b) = mkey a := rfl

theorem dmFields_merge : ∀ f ∈ dmFields, ∀ a b : DailyMetric,
    f (mergeCounters a b) = max (f a) (f b) := by
  intro f hf
  simp only [dmFields, List.mem_cons, List.not_mem_nil, or_false] at hf
  rcases hf with rfl | rfl | rfl | rfl | rfl | rfl | rfl | rfl | rfl | rfl |
    rfl | rfl | rfl | rfl | rfl | rfl <;> intro a b <;> rfl

theorem foldl_merge_mkey (t : List DailyMetric) (h : DailyMetric) :
    mkey (t.foldl mergeCounters h) = mkey h := by
  induction t generalizing h with
  | nil => rfl
  | cons a t ih => rw [List.foldl_cons, ih, mergeCounters_mkey]

theorem foldl_merge_max (f : DailyMetric → ℚ)
    (hf : ∀ a b : DailyMetric, f (mergeCounters a b) = max (f a) (f b))
    (t : List DailyMetric) (h : DailyMetric) :
    (∀ m ∈ h :: t, f m ≤ f (t.foldl mergeCounters h)) ∧
      (∃ m ∈ h :: t, f m = f (t.foldl mergeCounters h)) := by
  induction t generalizing h with
  | nil =>
    refine ⟨?_, ⟨h, by simp⟩⟩
    intro m hm
    simp at hm
    subst hm
    rfl
  | cons a t ih =>
    obtain ⟨ihle, ihex⟩ := ih (mergeCounters h a)
    rw [List.foldl_cons]
    constructor
    · intro m hm
      rcases List.mem_cons.mp hm with rfl | hm'
      · calc f m ≤ f (mergeCounters m a) := by rw [hf]; exact le_max_left _ _
          _ ≤ f (t.foldl mergeCounters (mergeCounters m a)) := ihle _ (by simp)
      · rcases List.mem_cons.mp hm' with rfl | hm''
        · calc f m ≤ f (mergeCounters h m) := by rw [hf]; exact le_max_right _ _
            _ ≤ f (t.foldl mergeCounters (mergeCounters h m)) := ihle _ (by simp)
        · exact ihle m (List.mem_cons_of_mem _ hm'')
    · obtain ⟨m, hm, hme⟩ := ihex
      rcases List.mem_cons.mp hm with rfl | hm'
      · rw [hf] at hme
        rcases max_choice (f h) (f a) with hc | hc
        · exact ⟨h, by simp, by rw [← hme, hc]⟩
        · exact ⟨a, by simp, by rw [← hme, hc]⟩
      · exact ⟨m, List.mem_cons_of_mem _ (List.mem_cons_of_mem _ hm'), hme⟩

/-- C1 helper: the grouped map of the merge, characterised per key. -/
theorem merge_filter_eq (l : List DailyMetric) (k : Platform × Int) :
    (mergeDailyMetrics l).filter (fun m => decide (mkey m = k)) =
      match alook k (groupFold mkey id mergeCounters l) with
      | some b => [b]
      | none => [] := by
  have hperm : (mergeDailyMetrics l).Perm
      ((groupFold mkey id mergeCounters l).map Prod.snd) :=
    List.perm_insertionSort _ _
  have hkv : ∀ p ∈ groupFold mkey id mergeCounters l, mkey p.2 = p.1 :=
    groupFold_value_key mkey id mergeCounters mkey (fun _ => rfl)
      (fun _ _ => rfl) l
  have hnd := groupFold_keys_nodup mkey id mergeCounters l
  have hf := filter_map_snd mkey (groupFold mkey id mergeCounters l) hkv hnd k
  have hpf := hperm.filter (fun m => decide (mkey m = k))
  rw [hf] at hpf
  cases hx : alook k (groupFold mkey id mergeCounters l) with
  | none =>
    rw [hx] at hpf
    exact List.Perm.eq_nil hpf
  | some b =>
    rw [hx] at hpf
    exact List.perm_singleton.mp hpf

/-- C1: for every input list of `DailyMetric` records and every
(platform, day) key occurring in it, `mergeDailyMetrics` keeps exactly one
record with that key, and every one of the 16 counters of that record
equals the maximum of that counter over the input records with that key —
a maximum, never a sum. -/
theorem mergeDailyMetrics_max_per_key (l : List DailyMetric)
    (k : Platform × Int)
    (hk : l.filter (fun m => decide (mkey m = k)) ≠ []) :
    ∃ r, (mergeDailyMetrics l).filter (fun m => decide (mkey m = k)) = [r] ∧
      ∀ f ∈ dmFields,
        (∀ m ∈ l.filter (fun m => decide (mkey m = k)), f m ≤ f r) ∧
        (∃ m ∈ l.filter (fun m => decide (mkey m = k)), f m = f r) := by
  rw [merge_filter_eq, groupFold_alook]
  cases hft : l.filter (fun m => decide (mkey m = k)) with
  | nil => exact absurd hft hk
  | cons h t =>
    refine ⟨t.foldl mergeCounters h, rfl, ?_⟩
    intro f hf
    exact foldl_merge_max f (dmFields_merge f hf) t h

/-- Witness for C1 at the specification's example: two records for the same
(platform, day) key with views 100 and 80. -/
theorem mergeDailyMetrics_max_per_key_witness :
    ∃ r, (mergeDailyMetrics overlapPair).filter
        (fun m => decide (mkey m = (Platform.x, 0))) = [r] ∧
      ∀ f ∈ dmFields,
        (∀ m ∈ overlapPair.filter (fun m => decide (mkey m = (Platform.x, 0))),
          f m ≤ f r) ∧
        (∃ m ∈ overlapPair.filter (fun m => decide (mkey m = (Platform.x, 0))),
          f m = f r) :=
  mergeDailyMetrics_max_per_key overlapPair (Platform.x, 0) (by decide)

/-- C4 helper: a list that is sorted by date and has pairwise distinct
(platform, day) keys is left unchanged by the merge. -/
theorem merge_eq_self_of (L : List DailyMetric) (hs : L.Sorted dateLE)
    (hnd : (L.map mkey).Nodup) : mergeDailyMetrics L = L := by
  unfold mergeDailyMetrics
  rw [groupFold_id_of_nodup mkey mergeCounters L hnd, List.map_map]
  have hcomp : (Prod.snd ∘ fun a : DailyMetric => (mkey a, a)) = id := rfl
  rw [hcomp, List.map_id]
  exact hs.insertionSort_eq

/-- C4: the merge output is sorted by day ascending, and applying the merge
to an already-merged list is a no-op. -/
theorem mergeDailyMetrics_sorted_idem (l : List DailyMetric) :
    (mergeDailyMetrics l).Pairwise
        (fun a b => msDay a.date ≤ msDay b.date) ∧
      mergeDailyMetrics (mergeDailyMetrics l) = mergeDailyMetrics l := by
  have hsorted : (mergeDailyMetrics l).Sorted dateLE :=
    List.sorted_insertionSort dateLE _
  constructor
  · refine hsorted.imp ?_
    intro a b hab
    unfold msDay
    rw [Int.fdiv_eq_ediv _ (by norm_num), Int.fdiv_eq_ediv _ (by norm_num)]
    exact Int.ediv_le_ediv (by norm_num) hab
  · have hkv : ∀ p ∈ groupFold mkey id mergeCounters l, mkey p.2 = p.1 :=
      groupFold_value_key mkey id mergeCounters mkey (fun _ => rfl)
        (fun _ _ => rfl) l
    have hnd := groupFold_keys_nodup mkey id mergeCounters l
    have hvalnd :
        (((groupFold mkey id mergeCounters l).map Prod.snd).map mkey).Nodup := by
      rw [List.map_map]
      have hcongr :
          List.map (mkey ∘ Prod.snd) (groupFold mkey id mergeCounters l) =
            List.map Prod.fst (groupFold mkey id mergeCounters l) :=
        List.map_congr_left (fun p hp => hkv p hp)
      rw [hcongr]
      exact hnd
    have hperm : (mergeDailyMetrics l).Perm
        ((groupFold mkey id mergeCounters l).map Prod.snd) :=
      List.perm_insertionSort _ _
    have houtnd : ((mergeDailyMetrics l).map mkey).Nodup :=
      ((hperm.map mkey).symm).nodup hvalnd
    exact merge_eq_self_of _ hsorted houtnd

/-! ## Aggregator lemmas -/

theorem msFieldPairs_init_add : ∀ p ∈ msFieldPairs,
    (∀ m, p.1 (initMonth m) = p.2 m) ∧
    (∀ s m, p.1 (addMonth s m) = p.1 s + p.2 m) := by
  intro p hp
  simp only [msFieldPairs, List.mem_cons, List.not_mem_nil, or_false] at hp
  rcases hp with rfl | rfl | rfl | rfl | rfl | rfl | rfl | rfl | rfl | rfl |
    rfl | rfl | rfl | rfl | rfl | rfl <;>
    exact ⟨fun _ => rfl, fun _ _ => rfl⟩

theorem foldl_addMonth_field (f : MonthSummary → ℚ) (g : DailyMetric → ℚ)
    (hadd : ∀ s m, f (addMonth s m) = f s + g m) (t : List DailyMetric) :
    ∀ s, f (t.foldl addMonth s) = f s + (t.map g).sum := by
  induction t with
  | nil => intro s; simp
  | cons a t ih =>
    intro s
    rw [List.foldl_cons, ih, hadd, List.map_cons, List.sum_cons, add_assoc]

theorem foldl_addMonth_days (t : List DailyMetric) :
    ∀ s, (t.foldl addMonth s).days = s.days + t.length := by
  induction t with
  | nil => intro s; simp
  | cons a t ih =>
    intro s
    rw [List.foldl_cons, ih]
    simp [addMonth]
    omega

theorem initMonth_monthKey (m : DailyMetric) :
    (initMonth m).monthKey = dayMonthKey m := rfl

theorem addMonth_monthKey (s : MonthSummary) (m : DailyMetric) :
    (addMonth s m).monthKey = s.monthKey := rfl

/-- C2 helper: the grouped month map, characterised per month key. -/
theorem month_filter_eq (l : List DailyMetric) (k : Int × Int) :
    (aggregateByMonth l).filter (fun b => decide (b.monthKey = k)) =
      match alook k (groupFold dayMonthKey initMonth addMonth l) with
      | some b => [b]
      | none => [] := by
  unfold aggregateByMonth
  have hperm :=
    List.perm_insertionSort monthLE
      ((groupFold dayMonthKey initMonth addMonth l).map Prod.snd)
  have hkv : ∀ p ∈ groupFold dayMonthKey initMonth addMonth l,
      p.2.monthKey = p.1 :=
    groupFold_value_key dayMonthKey initMonth addMonth
      MonthSummary.monthKey initMonth_monthKey addMonth_monthKey l
  have hnd := groupFold_keys_nodup dayMonthKey initMonth addMonth l
  have hf := filter_map_snd MonthSummary.monthKey
    (groupFold dayMonthKey initMonth addMonth l) hkv hnd k
  have hpf := hperm.filter (fun b => decide (b.monthKey = k))
  rw [hf] at hpf
  cases hx : alook k (groupFold dayMonthKey initMonth addMonth l) with
  | none =>
    rw [hx] at hpf
    exact List.Perm.eq_nil hpf
  | some b =>
    rw [hx] at hpf
    exact List.perm_singleton.mp hpf

/-- C2: `aggregateByMonth` buckets daily records by UTC calendar month; on
each bucket every one of the 16 counters is the arithmetic sum of that
counter over the records of that month, the `days` field counts the
contributing records, and the output is sorted ascending by month key. -/
theorem aggregateByMonth_spec (l : List DailyMetric) (k : Int × Int) :
    (aggregateByMonth l).Sorted monthLE ∧
      (k ∈ l.map dayMonthKey →
        ∃ s, (aggregateByMonth l).filter (fun b => decide (b.monthKey = k)) = [s] ∧
          (∀ p ∈ msFieldPairs,
            p.1 s = ((l.filter (fun m => decide (dayMonthKey m = k))).map p.2).sum) ∧
          s.days = (l.filter (fun m => decide (dayMonthKey m = k))).length) := by
  constructor
  · exact List.sorted_insertionSort monthLE _
  · intro hmem
    obtain ⟨m, hm, hkey⟩ := List.mem_map.mp hmem
    have hne : l.filter (fun m => decide (dayMonthKey m = k)) ≠ [] :=
      List.ne_nil_of_mem (List.mem_filter.mpr ⟨hm, by simp [hkey]⟩)
    rw [month_filter_eq, groupFold_alook]
    cases hft : l.filter (fun m => decide (dayMonthKey m = k)) with
    | nil => exact absurd hft hne
    | cons h t =>
      refine ⟨t.foldl addMonth (initMonth h), rfl, ?_, ?_⟩
      · intro p hp
        obtain ⟨hinit, hadd⟩ := msFieldPairs_init_add p hp
        rw [foldl_addMonth_field p.1 p.2 hadd t (initMonth h), hinit,
          List.map_cons, List.sum_cons]
      · rw [foldl_addMonth_days t (initMonth h)]
        simp only [initMonth, List.length_cons]
        omega

/-- Witness for C2: aggregating the two-record fixture for January 1970. -/
theorem aggregateByMonth_spec_witness :
    ∃ s, (aggregateByMonth overlapPair).filter
        (fun b => decide (b.monthKey = (1970, 1))) = [s] ∧
      (∀ p ∈ msFieldPairs,
        p.1 s = ((overlapPair.filter
          (fun m => decide (dayMonthKey m = (1970, 1)))).map p.2).sum) ∧
      s.days = (overlapPair.filter
        (fun m => decide (dayMonthKey m = (1970, 1)))).length :=
  (aggregateByMonth_spec overlapPair (1970, 1)).2 (by decide)

/-! ## Coverage and data-quality lemmas -/

theorem getLast?_mem_self {α : Type} : ∀ {l : List α} {x : α},
    l.getLast? = some x → x ∈ l
  | [], _, h => by cases h
  | [a], x, h => by
    simp only [List.getLast?_singleton, Option.some.injEq] at h
    simp [h]
  | a :: b :: t, x, h => by
    rw [List.getLast?_cons_cons] at h
    exact List.mem_cons_of_mem _ (getLast?_mem_self h)

theorem getLast?_isSome_of_ne_nil {α : Type} : ∀ {l : List α}, l ≠ [] →
    ∃ x, l.getLast? = some x
  | [], h => absurd rfl h
  | [a], _ => ⟨a, rfl⟩
  | a :: b :: t, _ => by
    rw [List.getLast?_cons_cons]
    exact getLast?_isSome_of_ne_nil (by simp)

theorem sorted_head?_le (l : List DailyMetric) (hs : l.Sorted dateLE)
    (x : DailyMetric) (hhd : l.head? = some x) :
    ∀ y ∈ l, x.date ≤ y.date := by
  cases l with
  | nil => cases hhd
  | cons h t =>
    simp only [List.head?_cons, Option.some.injEq] at hhd
    subst hhd
    intro y hy
    rcases List.mem_cons.mp hy with rfl | hy'
    · exact le_refl _
    · exact (List.pairwise_cons.mp hs).1 y hy'

theorem sorted_le_getLast? (l : List DailyMetric) (hs : l.Sorted dateLE)
    (x : DailyMetric) (hlast : l.getLast? = some x) :
    ∀ y ∈ l, y.date ≤ x.date := by
  induction l with
  | nil => cases hlast
  | cons h t ih =>
    cases t with
    | nil =>
      simp only [List.getLast?_singleton, Option.some.injEq] at hlast
      subst hlast
      intro y hy
      rcases List.mem_cons.mp hy with rfl | hy'
      · exact le_refl _
      · cases hy'
    | cons a t' =>
      rw [List.getLast?_cons_cons] at hlast
      intro y hy
      rcases List.mem_cons.mp hy with rfl | hy'
      · exact (List.pairwise_cons.mp hs).1 x (getLast?_mem_self hlast)
      · exact ih (List.pairwise_cons.mp hs).2 hlast y hy'

/-- C5: on a non-empty day-aligned series, `buildDataQuality` reports an
expected day count equal to the inclusive span between the earliest and
latest day plus one, and a missing day count of
max(expected − observed, 0); on the empty series the coverage endpoints and
both counts are absent. -/
theorem buildDataQuality_spec (lbl : List Char) (l : List DailyMetric) :
    (l ≠ [] → (∀ m ∈ l, (86400000 : Int) ∣ m.date) →
      ∃ s e, (buildDataQuality lbl l).coverage.start = some s ∧
        (buildDataQuality lbl l).coverage.endD = some e ∧
        (∃ a ∈ l, a.date = s) ∧ (∃ b ∈ l, b.date = e) ∧
        (∀ m ∈ l, s ≤ m.date ∧ m.date ≤ e) ∧
        (buildDataQuality lbl l).expectedDays =
          some ((e - s).fdiv 86400000 + 1) ∧
        (buildDataQuality lbl l).missingDays =
          some (max ((e - s).fdiv 86400000 + 1 - (l.length : Int)) 0)) ∧
      ((buildDataQuality lbl []).coverage.start = none ∧
        (buildDataQuality lbl []).coverage.endD = none ∧
        (buildDataQuality lbl []).expectedDays = none ∧
        (buildDataQuality lbl []).missingDays = none) := by
  constructor
  · intro hne hdvd
    have hperm := List.perm_insertionSort dateLE l
    have hsorted := List.sorted_insertionSort dateLE l
    cases hsrt : List.insertionSort dateLE l with
    | nil =>
      rw [hsrt] at hperm
      exact absurd hperm.symm.eq_nil hne
    | cons hd tl =>
      have hhd : (List.insertionSort dateLE l).head? = some hd := by
        rw [hsrt]; rfl
      obtain ⟨lst, hlast⟩ :=
        getLast?_isSome_of_ne_nil (l := List.insertionSort dateLE l)
          (by rw [hsrt]; simp)
      have hhdl : hd ∈ l := hperm.mem_iff.mp (by rw [hsrt]; simp)
      have hlstl : lst ∈ l :=
        hperm.mem_iff.mp (getLast?_mem_self hlast)
      have hcov : buildCoverage l =
          { start := some hd.date, endD := some lst.date
            days := (List.insertionSort dateLE l).length } := by
        unfold buildCoverage
        rw [if_neg hne]
        simp [hhd, hlast]
      obtain ⟨q, hq⟩ : (86400000 : Int) ∣ (lst.date - hd.date) :=
        dvd_sub (hdvd lst hlstl) (hdvd hd hhdl)
      have hround : round (((lst.date - hd.date : Int) : ℚ) / 86400000) =
          (lst.date - hd.date).fdiv 86400000 := by
        rw [hq, Int.mul_fdiv_cancel_left _ (by norm_num)]
        push_cast
        rw [mul_div_cancel_left₀ _ (by norm_num)]
        exact round_intCast q
      have hlen : (List.insertionSort dateLE l).length = l.length :=
        hperm.length_eq
      refine ⟨hd.date, lst.date, ?_, ?_, ⟨hd, hhdl, rfl⟩, ⟨lst, hlstl, rfl⟩,
        ?_, ?_, ?_⟩
      · unfold buildDataQuality
        rw [hcov]
      · unfold buildDataQuality
        rw [hcov]
      · intro m hm
        have hm' : m ∈ List.insertionSort dateLE l := hperm.mem_iff.mpr hm
        exact ⟨sorted_head?_le _ hsorted hd hhd m hm',
          sorted_le_getLast? _ hsorted lst hlast m hm'⟩
      · unfold buildDataQuality
        rw [hcov]
        simp only [hround]
      · unfold buildDataQuality
        rw [hcov]
        simp only [hround, hlen]
  · refine ⟨rfl, rfl, rfl, rfl⟩

/-- Witness for C5 at the specification's coverage example: days D1..D10
with D5 missing (nine aligned records spanning ten days). -/
theorem buildDataQuality_spec_witness :
    ∃ s e, (buildDataQuality (strD "X") gapSeries).coverage.start = some s ∧
      (buildDataQuality (strD "X") gapSeries).coverage.endD = some e ∧
      (∃ a ∈ gapSeries, a.date = s) ∧ (∃ b ∈ gapSeries, b.date = e) ∧
      (∀ m ∈ gapSeries, s ≤ m.date ∧ m.date ≤ e) ∧
      (buildDataQuality (strD "X") gapSeries).expectedDays =
        some ((e - s).fdiv 86400000 + 1) ∧
      (buildDataQuality (strD "X") gapSeries).missingDays =
        some (max ((e - s).fdiv 86400000 + 1 - (gapSeries.length : Int)) 0) :=
  (buildDataQuality_spec (strD "X") gapSeries).1 (by decide) (by decide)

/-! ## Engagement rate (C6) -/

/-- C6: the engagement-rate fallback returns
(likes + comments + reposts) / impressions for positive impressions and
null for zero impressions; the 200/10/5/5 example yields exactly 0.10. -/
theorem calculateEngagementRate_spec (impressions likes comments reposts : ℚ) :
    (0 < impressions →
      calculateEngagementRate impressions likes comments reposts =
        some ((likes + comments + reposts) / impressions)) ∧
    (impressions = 0 →
      calculateEngagementRate impressions likes comments reposts = none) ∧
    calculateEngagementRate 200 10 5 5 = some (1 / 10) := by
  refine ⟨?_, ?_, ?_⟩
  · intro h
    rw [calculateEngagementRate, if_neg (ne_of_gt h)]
  · intro h
    rw [calculateEngagementRate, if_pos h]
  · rw [calculateEngagementRate, if_neg (by norm_num)]
    norm_num

/-- Witness for C6 at the specification's example values. -/
theorem calculateEngagementRate_spec_witness :
    calculateEngagementRate 200 10 5 5 = some ((10 + 5 + 5) / 200) ∧
      calculateEngagementRate 0 10 5 5 = none :=
  ⟨(calculateEngagementRate_spec 200 10 5 5).1 (by norm_num),
   (calculateEngagementRate_spec 0 10 5 5).2.1 rfl⟩


/-! ## Post deduplication lemmas (C3) -/

theorem liKeep_cases (e p : LIPost) : liKeep e p = p ∨ liKeep e p = e := by
  unfold liKeep
  split
  · exact Or.inl rfl
  · exact Or.inr rfl

theorem liKeep_imp_le (e p : LIPost) :
    e.impressions ≤ (liKeep e p).impressions ∧
      p.impressions ≤ (liKeep e p).impressions := by
  by_cases hcond : p.impressions > e.impressions ∨
      (p.impressions = e.impressions ∧ p.hasTime ∧ ¬e.hasTime)
  · rw [liKeep, if_pos hcond]
    rcases hcond with hgt | ⟨heq, -⟩
    · exact ⟨le_of_lt hgt, le_refl _⟩
    · exact ⟨le_of_eq heq.symm, le_refl _⟩
  · rw [liKeep, if_neg hcond]
    push_neg at hcond
    exact ⟨le_refl _, hcond.1⟩

theorem liKeep_time (e p q : LIPost) (hq : q = e ∨ q = p)
    (himp : q.impressions = (liKeep e p).impressions) (ht : q.hasTime) :
    (liKeep e p).hasTime := by
  by_cases hcond : p.impressions > e.impressions ∨
      (p.impressions = e.impressions ∧ p.hasTime ∧ ¬e.hasTime)
  · rw [liKeep, if_pos hcond] at himp ⊢
    rcases hcond with hgt | ⟨-, hat, -⟩
    · rcases hq with rfl | rfl
      · exact absurd hgt (by rw [himp]; exact lt_irrefl _)
      · exact ht
    · exact hat
  · rw [liKeep, if_neg hcond] at himp ⊢
    push_neg at hcond
    rcases hq with rfl | rfl
    · exact ht
    · exact hcond.2 himp ht

theorem liFold_spec (t : List LIPost) (h : LIPost) :
    (t.foldl liKeep h ∈ h :: t) ∧
      (∀ p ∈ h :: t, p.impressions ≤ (t.foldl liKeep h).impressions) ∧
      ((∃ p ∈ h :: t, p.impressions = (t.foldl liKeep h).impressions ∧
          p.hasTime = true) → (t.foldl liKeep h).hasTime = true) := by
  induction t generalizing h with
  | nil =>
    refine ⟨by simp, ?_, ?_⟩
    · intro p hp
      simp only [List.mem_singleton] at hp
      subst hp
      exact le_refl _
    · rintro ⟨p, hp, heq, ht⟩
      simp only [List.mem_singleton] at hp
      subst hp
      exact ht
  | cons a t ih =>
    obtain ⟨ihmem, ihle, ihtime⟩ := ih (liKeep h a)
    rw [List.foldl_cons]
    refine ⟨?_, ?_, ?_⟩
    · rcases List.mem_cons.mp ihmem with hm | hm
      · rcases liKeep_cases h a with hc | hc <;> rw [hm, hc] <;> simp
      · exact List.mem_cons_of_mem _ (List.mem_cons_of_mem _ hm)
    · intro p hp
      rcases List.mem_cons.mp hp with rfl | hp'
      · exact le_trans (liKeep_imp_le p a).1 (ihle _ (by simp))
      · rcases List.mem_cons.mp hp' with rfl | hp''
        · exact le_trans (liKeep_imp_le h p).2 (ihle _ (by simp))
        · exact ihle p (List.mem_cons_of_mem _ hp'')
    · rintro ⟨p, hp, heq, ht⟩
      have hstep : ∀ hqor : p = h ∨ p = a,
          (t.foldl liKeep (liKeep h a)).hasTime = true := by
        intro hqor
        have hple : p.impressions ≤ (liKeep h a).impressions := by
          rcases hqor with rfl | rfl
          · exact (liKeep_imp_le p a).1
          · exact (liKeep_imp_le h p).2
        have h2 : (liKeep h a).impressions ≤
            (t.foldl liKeep (liKeep h a)).impressions := ihle _ (by simp)
        have h3 : (liKeep h a).impressions ≤ p.impressions := by
          rw [heq]; exact h2
        have hq : p.impressions = (liKeep h a).impressions :=
          le_antisymm hple h3
        have heq2 : (liKeep h a).impressions =
            (t.foldl liKeep (liKeep h a)).impressions := by
          rw [← hq]; exact heq
        have htk : (liKeep h a).hasTime := liKeep_time h a p hqor hq ht
        exact ihtime ⟨liKeep h a, by simp, heq2, htk⟩
      rcases List.mem_cons.mp hp with rfl | hp'
      · exact hstep (Or.inl rfl)
      · rcases List.mem_cons.mp hp' with rfl | hp''
        · exact hstep (Or.inr rfl)
        · exact ihtime ⟨p, List.mem_cons_of_mem _ hp'', heq, ht⟩

theorem xKeep_cases (e p : XPost) : xKeep e p = p ∨ xKeep e p = e := by
  unfold xKeep
  split
  · exact Or.inl rfl
  · exact Or.inr rfl

theorem xKeep_imp_le (e p : XPost) :
    e.impressions ≤ (xKeep e p).impressions ∧
      p.impressions ≤ (xKeep e p).impressions := by
  by_cases hcond : p.impressions > e.impressions
  · rw [xKeep, if_pos hcond]
    exact ⟨le_of_lt hcond, le_refl _⟩
  · rw [xKeep, if_neg hcond]
    exact ⟨le_refl _, le_of_not_lt hcond⟩

theorem xFold_spec (t : List XPost) (h : XPost) :
    (t.foldl xKeep h ∈ h :: t) ∧
      ∀ p ∈ h :: t, p.impressions ≤ (t.foldl xKeep h).impressions := by
  induction t generalizing h with
  | nil =>
    refine ⟨by simp, ?_⟩
    intro p hp
    simp only [List.mem_singleton] at hp
    subst hp
    exact le_refl _
  | cons a t ih =>
    obtain ⟨ihmem, ihle⟩ := ih (xKeep h a)
    rw [List.foldl_cons]
    refine ⟨?_, ?_⟩
    · rcases List.mem_cons.mp ihmem with hm | hm
      · rcases xKeep_cases h a with hc | hc <;> rw [hm, hc] <;> simp
      · exact List.mem_cons_of_mem _ (List.mem_cons_of_mem _ hm)
    · intro p hp
      rcases List.mem_cons.mp hp with rfl | hp'
      · exact le_trans (xKeep_imp_le p a).1 (ihle _ (by simp))
      · rcases List.mem_cons.mp hp' with rfl | hp''
        · exact le_trans (xKeep_imp_le h p).2 (ihle _ (by simp))
        · exact ihle p (List.mem_cons_of_mem _ hp'')

/-- C3: both post-deduplication loops group posts by the identity key
(permalink when non-empty, else the title/text–timestamp composite), keep
at most one post per key, and the surviving post belongs to its group and
carries the group's maximal impressions; on an impressions tie the
platform-B (LinkedIn) survivor is time-of-day-known whenever any maximal
group member is, while platform A (X) keeps only the strictly-greater
rule. -/
theorem dedupPosts_spec (liPosts : List LIPost) (xPosts : List XPost)
    (k k' : List Char) :
    (∀ r, alook k (dedupLinkedInPosts liPosts) = some r →
      r ∈ liPosts.filter (fun p => decide (liPostKey p = k)) ∧
      (∀ p ∈ liPosts.filter (fun p => decide (liPostKey p = k)),
        p.impressions ≤ r.impressions) ∧
      ((∃ p ∈ liPosts.filter (fun p => decide (liPostKey p = k)),
          p.impressions = r.impressions ∧ p.hasTime = true) →
        r.hasTime = true)) ∧
    (liPosts.filter (fun p => decide (liPostKey p = k)) ≠ [] →
      ∃ r, alook k (dedupLinkedInPosts liPosts) = some r) ∧
    ((dedupLinkedInPosts liPosts).map Prod.fst).Nodup ∧
    (∀ r, alook k' (dedupXPosts xPosts) = some r →
      r ∈ xPosts.filter (fun p => decide (xPostKey p = k')) ∧
      ∀ p ∈ xPosts.filter (fun p => decide (xPostKey p = k')),
        p.impressions ≤ r.impressions) ∧
    (xPosts.filter (fun p => decide (xPostKey p = k')) ≠ [] →
      ∃ r, alook k' (dedupXPosts xPosts) = some r) ∧
    ((dedupXPosts xPosts).map Prod.fst).Nodup := by
  refine ⟨?_, ?_, groupFold_keys_nodup _ _ _ _, ?_, ?_,
    groupFold_keys_nodup _ _ _ _⟩
  · intro r hr
    rw [dedupLinkedInPosts, groupFold_alook] at hr
    cases hft : liPosts.filter (fun p => decide (liPostKey p = k)) with
    | nil => rw [hft] at hr; cases hr
    | cons h t =>
      rw [hft] at hr
      obtain ⟨hmem, hle, htime⟩ := liFold_spec t h
      have hr' : r = t.foldl liKeep h := by
        simpa using hr.symm
      subst hr'
      exact ⟨hmem, hle, htime⟩
  · intro hne
    rw [dedupLinkedInPosts, groupFold_alook]
    cases hft : liPosts.filter (fun p => decide (liPostKey p = k)) with
    | nil => exact absurd hft hne
    | cons h t => exact ⟨t.foldl liKeep h, rfl⟩
  · intro r hr
    rw [dedupXPosts, groupFold_alook] at hr
    cases hft : xPosts.filter (fun p => decide (xPostKey p = k')) with
    | nil => rw [hft] at hr; cases hr
    | cons h t =>
      rw [hft] at hr
      obtain ⟨hmem, hle⟩ := xFold_spec t h
      have hr' : r = t.foldl xKeep h := by
        simpa using hr.symm
      subst hr'
      exact ⟨hmem, hle⟩
  · intro hne
    rw [dedupXPosts, groupFold_alook]
    cases hft : xPosts.filter (fun p => decide (xPostKey p = k')) with
    | nil => exact absurd hft hne
    | cons h t => exact ⟨t.foldl xKeep h, rfl⟩

/-- Witness for C3 at the specification's example: two posts sharing a
permalink with impressions 500 and 800 collapse to the 800 one. -/
theorem dedupPosts_spec_witness :
    (liPostW (strD "p") 800 false) ∈
        liDupPosts.filter (fun p => decide (liPostKey p = strD "p")) ∧
      (∀ p ∈ liDupPosts.filter (fun p => decide (liPostKey p = strD "p")),
        p.impressions ≤ (liPostW (strD "p") 800 false).impressions) ∧
      ((∃ p ∈ liDupPosts.filter (fun p => decide (liPostKey p = strD "p")),
          p.impressions = (liPostW (strD "p") 800 false).impressions ∧
            p.hasTime = true) →
        (liPostW (strD "p") 800 false).hasTime = true) :=
  (dedupPosts_spec liDupPosts xDupPosts (strD "p") (strD "q")).1
    (liPostW (strD "p") 800 false) (by decide)

/-! ## Table extractor (C8) -/

/-- C8: `parseCsvWithHeader` never fails: a throwing grid parse or a grid
with no row containing a cell matching the trimmed, case-insensitive
header label both yield the empty column list and empty record list. -/
theorem parseCsvWithHeader_safe
    (csvParse : List Char → Except Unit (List (List (List Char))))
    (csvText headerLabel : List Char) :
    (∀ e, csvParse csvText = .error e →
      parseCsvWithHeader csvParse csvText headerLabel = ([], [])) ∧
    (∀ rws, csvParse csvText = .ok rws →
      (∀ row ∈ rws, ∀ cell ∈ row,
        strLower (strTrim cell) ≠ strLower (strTrim headerLabel)) →
      parseCsvWithHeader csvParse csvText headerLabel = ([], [])) := by
  constructor
  · intro e he
    simp [parseCsvWithHeader, he]
  · intro rws hok hnom
    have hidx : rws.findIdx? (fun row =>
        row.any (fun cell =>
          decide (strLower (strTrim cell) = strLower (strTrim headerLabel)))) =
        none := by
      rw [List.findIdx?_eq_none_iff]
      intro row hrow
      simp only [List.any_eq_false, decide_eq_true_eq]
      exact fun cell hcell => hnom row hrow cell hcell
    simp [parseCsvWithHeader, hok, hidx]

/-- Witness for C8: a throwing parse and a header-free grid both produce
the empty result. -/
theorem parseCsvWithHeader_safe_witness :
    parseCsvWithHeader csvThrow (strD "x,y") (strD "Date") = ([], []) ∧
      parseCsvWithHeader csvNoHeader (strD "x,y") (strD "Date") = ([], []) :=
  ⟨(parseCsvWithHeader_safe csvThrow (strD "x,y") (strD "Date")).1 () rfl,
   (parseCsvWithHeader_safe csvNoHeader (strD "x,y") (strD "Date")).2
     [[strD "alpha", strD "beta"]] rfl (by decide)⟩

/-! ## Platform-B date parser (C7) -/

theorem ratTrunc_intCast (z : Int) : ratTrunc (z : ℚ) = z := by
  unfold ratTrunc
  by_cases hz : (z : ℚ) < 0
  · rw [if_pos hz, ← Int.cast_neg, Int.floor_intCast, neg_neg]
  · rw [if_neg hz, Int.floor_intCast]

/-- Counterexample for C7 as stated: the numeric spreadsheet serial 0 is
falsy, so the parser returns null for it rather than the 1899-12-30
epoch instant the claim requires for every serial. -/
theorem parseLinkedInDateTime_zero_counterexample :
    parseLinkedInDateTime genNone (LIRaw.num 0) ≠
      some ((daysFromCivil 1899 12 30 + 0) * 86400000) := by
  simp [parseLinkedInDateTime]

/-- C7 (amended): every nonzero numeric serial n parses to the instant n
days after 1899-12-30T00:00:00Z (serial 0 is falsy and parses to null);
serial 44927 parses to midnight UTC 2023-01-01; an hour with an AM/PM
suffix is converted to 24-hour form (12 AM to 0, 12 PM stays 12, PM with
hour below 12 adds 12), as the M/D/Y example string shows end to end. -/
theorem parseLinkedInDateTime_spec (g : List Char → Option Int) :
    (∀ n : Int, n ≠ 0 →
      parseLinkedInDateTime g (LIRaw.num (n : ℚ)) =
        some ((daysFromCivil 1899 12 30 + n) * 86400000)) ∧
    parseLinkedInDateTime g (LIRaw.num 44927) =
      some (daysFromCivil 2023 1 1 * 86400000) ∧
    (∀ h : ℚ, liAdjustHour (some (strD "AM")) 12 = 0 ∧
      liAdjustHour (some (strD "PM")) 12 = 12 ∧
      (h < 12 → liAdjustHour (some (strD "PM")) h = h + 12)) ∧
    parseLinkedInDateTime g (LIRaw.str (strD "1/15/2023 7:30 PM")) =
      some (daysFromCivil 2023 1 15 * 86400000 + 19 * 3600000 + 30 * 60000) := by
  have hnum : ∀ n : Int, n ≠ 0 →
      parseLinkedInDateTime g (LIRaw.num (n : ℚ)) =
        some ((daysFromCivil 1899 12 30 + n) * 86400000) := by
    intro n hn
    have hne : (n : ℚ) ≠ 0 := Int.cast_ne_zero.mpr hn
    simp only [parseLinkedInDateTime, if_neg hne]
    have hcast : ((daysFromCivil 1899 12 30 * 86400000 : Int) : ℚ) +
        (n : ℚ) * 86400000 =
        (((daysFromCivil 1899 12 30 + n) * 86400000 : Int) : ℚ) := by
      push_cast
      ring
    rw [hcast, ratTrunc_intCast]
  refine ⟨hnum, ?_, ?_, ?_⟩
  · have h1 := hnum 44927 (by norm_num)
    have hc : ((44927 : Int) : ℚ) = (44927 : ℚ) := by norm_num
    rw [hc] at h1
    rw [h1]
    have : daysFromCivil 1899 12 30 + 44927 = daysFromCivil 2023 1 1 := by
      decide
    rw [this]
  · intro h
    refine ⟨?_, ?_, ?_⟩
    · decide
    · decide
    · intro hlt
      unfold liAdjustHour
      rw [if_pos (show some (strD "PM") = some (strD "PM") ∧ h < 12 from
        ⟨rfl, hlt⟩)]
      rw [if_neg]
      rintro ⟨hc, -⟩
      exact absurd hc (by decide)
  · have hsplit : splitWsRuns (strTrim (strD "1/15/2023 7:30 PM")) =
        [strD "1/15/2023", strD "7:30", strD "PM"] := by decide
    have hpieces : splitOnChar '/' (strD "1/15/2023") =
        [strD "1", strD "15", strD "2023"] := by decide
    have hn1 : jsNumber (strD "1") = some 1 := by decide
    have hn15 : jsNumber (strD "15") = some 15 := by decide
    have hn2023 : jsNumber (strD "2023") = some 2023 := by decide
    have hn7 : jsNumber (strD "7") = some 7 := by decide
    have hn30 : jsNumber (strD "30") = some 30 := by decide
    have htime : liTime (some (strD "7:30")) (some (strD "PM")) = (19, 30) := by
      simp only [liTime]
      rw [if_pos (by decide)]
      rw [show splitOnChar ':' (strD "7:30") = [strD "7", strD "30"] from by decide]
      simp only [List.headD_cons, List.getElem?_cons_succ, List.getElem?_cons_zero,
        hn7, hn30]
      rw [show (some (strD "PM")).map strUpper = some (strD "PM") from by decide]
      unfold liAdjustHour
      rw [if_pos (show some (strD "PM") = some (strD "PM") ∧ (7 : ℚ) < 12 from
        ⟨rfl, by norm_num⟩)]
      rw [if_neg]
      · norm_num
      · rintro ⟨hc, -⟩
        exact absurd hc (by decide)
    have hne : strD "1/15/2023 7:30 PM" ≠ [] := by decide
    simp only [parseLinkedInDateTime, if_neg hne, hsplit, List.headD_cons,
      List.getElem?_cons_succ, List.getElem?_cons_zero, hpieces,
      hn1, hn15, hn2023, htime]
    have e2023 : ratTrunc 2023 = 2023 := by
      rw [show (2023 : ℚ) = ((2023 : Int) : ℚ) from by norm_num, ratTrunc_intCast]
    have e0 : ratTrunc ((1 : ℚ) - 1) = 0 := by
      rw [show (1 : ℚ) - 1 = ((0 : Int) : ℚ) from by norm_num, ratTrunc_intCast]
    have e15 : ratTrunc 15 = 15 := by
      rw [show (15 : ℚ) = ((15 : Int) : ℚ) from by norm_num, ratTrunc_intCast]
    have e19 : ratTrunc 19 = 19 := by
      rw [show (19 : ℚ) = ((19 : Int) : ℚ) from by norm_num, ratTrunc_intCast]
    have e30 : ratTrunc 30 = 30 := by
      rw [show (30 : ℚ) = ((30 : Int) : ℚ) from by norm_num, ratTrunc_intCast]
    simp only [dateUTCms, e2023, e0, e15, e19, e30]
    decide

/-- Witness for the C7 amended theorem: serial 1 and the PM hour shift at
hour 7. -/
theorem parseLinkedInDateTime_spec_witness :
    parseLinkedInDateTime genNone (LIRaw.num ((1 : Int) : ℚ)) =
        some ((daysFromCivil 1899 12 30 + 1) * 86400000) ∧
      liAdjustHour (some (strD "PM")) 7 = 7 + 12 :=
  ⟨(parseLinkedInDateTime_spec genNone).1 1 (by norm_num),
   ((parseLinkedInDateTime_spec genNone).2.2.1 7).2.2 (by norm_num)⟩

/-! ## Platform-A record mapper (C9, C10) -/

/-- Counterexample for C9 as stated: a row whose "Video views" column
supplies the value 0 does not keep that value — the falsy 0 makes the `||`
fall back to the video-overview views (7 here), so the fallback is not
restricted to an absent column. -/
theorem xVideoViews_counterexample :
    (xDailyRowToMetric pXFix vmFix rowZeroVideo).map DailyMetric.videoViews =
        some 7 ∧
      toNumber (pickField rowZeroVideo [strD "Video views"]) = 0 ∧
      (7 : ℚ) ≠ 0 := by
  refine ⟨by decide, by decide, by norm_num⟩

/-- C9 (amended): for a platform-A row whose date parses, the mapper keeps
the explicit "Video views" column value whenever it is nonzero, and falls
back to the video-overview views of the same calendar day whenever the
column value coerces to 0 (absent, blank, or an explicit 0). -/
theorem xVideoViews_fallback (pXDate : List Char → Option Int)
    (videoMap : Int → Option VideoDay) (row : List (List Char × List Char))
    (d : Int) (hd : pXDate (pickField row [strD "Date"]) = some d) :
    ∃ m, xDailyRowToMetric pXDate videoMap row = some m ∧
      (toNumber (pickField row [strD "Video views"]) ≠ 0 →
        m.videoViews = toNumber (pickField row [strD "Video views"])) ∧
      (toNumber (pickField row [strD "Video views"]) = 0 →
        m.videoViews = (match videoMap (msDay d) with
          | some v => v.views
          | none => 0)) := by
  simp only [xDailyRowToMetric, hd]
  refine ⟨_, rfl, ?_, ?_⟩
  · intro hnz
    simp only [if_pos hnz]
  · intro hz
    rw [if_neg (not_ne_iff.mpr hz)]

/-- Witness for the C9 amended theorem at the zero-column fixture row. -/
theorem xVideoViews_fallback_witness :
    ∃ m, xDailyRowToMetric pXFix vmFix rowZeroVideo = some m ∧
      (toNumber (pickField rowZeroVideo [strD "Video views"]) ≠ 0 →
        m.videoViews = toNumber (pickField rowZeroVideo [strD "Video views"])) ∧
      (toNumber (pickField rowZeroVideo [strD "Video views"]) = 0 →
        m.videoViews = (match vmFix (msDay (19358 * 86400000)) with
          | some v => v.views
          | none => 0)) :=
  xVideoViews_fallback pXFix vmFix rowZeroVideo (19358 * 86400000) (by decide)

/-- C10: in the platform-A mapper the reposts counter is the sum of the
first available "Reposts"/"Retweets" column and the "Shares" column, while
the same "Shares" value is also stored separately in the shares counter —
a nonzero Shares cell feeds two of the 16 counters. -/
theorem xRepostsShares_double (pXDate : List Char → Option Int)
    (videoMap : Int → Option VideoDay) (row : List (List Char × List Char))
    (m : DailyMetric) (hm : xDailyRowToMetric pXDate videoMap row = some m) :
    m.reposts = toNumber (pickField row [strD "Reposts", strD "Retweets"]) +
        toNumber (pickField row [strD "Shares"]) ∧
      m.shares = toNumber (pickField row [strD "Shares"]) := by
  cases hd : pXDate (pickField row [strD "Date"]) with
  | none =>
    simp only [xDailyRowToMetric, hd] at hm
    exact Option.noConfusion hm
  | some d =>
    simp only [xDailyRowToMetric, hd, Option.some.injEq] at hm
    subst hm
    exact ⟨rfl, rfl⟩

/-- Witness for C10 at a row carrying Reposts 3 and Shares 4. -/
theorem xRepostsShares_double_witness :
    ∃ m, xDailyRowToMetric pXFix vmFix rowRepostShare = some m ∧
      m.reposts = toNumber (pickField rowRepostShare
          [strD "Reposts", strD "Retweets"]) +
        toNumber (pickField rowRepostShare [strD "Shares"]) ∧
      m.shares = toNumber (pickField rowRepostShare [strD "Shares"]) := by
  cases hm : xDailyRowToMetric pXFix vmFix rowRepostShare with
  | none => exact absurd hm (by decide)
  | some m =>
    exact ⟨m, rfl, xRepostsShares_double pXFix vmFix rowRepostShare m hm⟩
